import Mathlib

/-!
Verification of `decision_transformer/utils.py`.

Shallow embedding of the data-preparation and evaluation code of the
decision-transformer utility module:

* `discount_cumsum` — discounted return-to-go computation (reverse scan);
* `get_d4rl_normalized_score` — affine score normalization against injected
  reference bounds (the reference tables are external data, modelled as an
  injected partial lookup; a missing key raises, as the Python dict does);
* `D4RLTrajectoryDataset.__init__` — store construction: per-trajectory
  return-to-go computation, global state statistics, in-place normalization
  (`datasetInit`);
* `D4RLTrajectoryDataset.__getitem__` — fixed-length window extraction with
  random offset (the `random.randint` draw is passed in as a parameter `si`
  whose admissible range mirrors the call's support) (`getItem`);
* `evaluate_on_env` — the autoregressive evaluation loop over pre-allocated
  rollout buffers (`stepOnce`, `runLoop`, `evaluate_on_env`).

Real arithmetic is modelled by `ℚ` (exact); `np.std`'s square root is an
injected function `msqrt : ℚ → ℚ` since the dataflow claims do not depend on
its numerics.  Tensors are lists; a state/action vector is a `List ℚ`.
-/

namespace DT

/-- A feature vector (one row of a 2-D numpy array / torch tensor). -/
abbrev Vec : Type := List ℚ

/-- `torch.zeros(d)` / a zero row of width `d`. -/
def vzero (d : ℕ) : Vec := List.replicate d 0

/-- `torch.ones(d)`. -/
def vones (d : ℕ) : Vec := List.replicate d 1

/-- Pointwise `(v - mean) / std`, the normalization applied to state rows in
both `D4RLTrajectoryDataset.__init__` and `evaluate_on_env`. -/
def normRow (mean std v : Vec) : Vec :=
  List.zipWith (· / ·) (List.zipWith (· - ·) v mean) std

/-- `discount_cumsum(x, gamma)` from `utils.py` (lines 12–17): the reverse
scan `d[L-1] = x[L-1]`, `d[t] = x[t] + gamma * d[t+1]`.  (On an empty input
the Python raises `IndexError` at `disc_cumsum[-1] = x[-1]`; the claims only
concern non-empty inputs, and this model returns `[]` there.) -/
def discount_cumsum : List ℚ → ℚ → List ℚ
  | [], _ => []
  | [a], _ => [a]
  | a :: b :: rest, gamma =>
    let g := discount_cumsum (b :: rest) gamma
    (a + gamma * g.headD 0) :: g

/-- The undiscounted suffix sums `t ↦ sum(r[t:])`, the declarative form the
spec uses for returns-to-go at `γ = 1`. -/
def suffixSums (r : List ℚ) : List ℚ :=
  (List.range r.length).map (fun t => (r.drop t).sum)

lemma discount_cumsum_length (x : List ℚ) (γ : ℚ) :
    (discount_cumsum x γ).length = x.length := by
  induction x with
  | nil => rfl
  | cons a rest ih =>
    cases rest with
    | nil => rfl
    | cons b r2 =>
      simp only [discount_cumsum, List.length_cons] at ih ⊢
      rw [ih]

lemma discount_cumsum_last (x : List ℚ) (γ : ℚ) (hx : x ≠ []) :
    (discount_cumsum x γ).getD (x.length - 1) 0 = x.getD (x.length - 1) 0 := by
  induction x with
  | nil => exact absurd rfl hx
  | cons a rest ih =>
    cases rest with
    | nil => rfl
    | cons b r2 =>
      simp only [discount_cumsum, List.length_cons, Nat.add_sub_cancel] at ih ⊢
      rw [List.getD_cons_succ, List.getD_cons_succ]
      simpa using ih (by simp)

lemma discount_cumsum_rec (x : List ℚ) (γ : ℚ) (t : ℕ) (ht : t + 1 < x.length) :
    (discount_cumsum x γ).getD t 0 =
      x.getD t 0 + γ * (discount_cumsum x γ).getD (t + 1) 0 := by
  induction x generalizing t with
  | nil => simp at ht
  | cons a rest ih =>
    cases rest with
    | nil => simp at ht
    | cons b r2 =>
      cases t with
      | zero =>
        simp only [discount_cumsum, List.getD_cons_zero, List.getD_cons_succ]
        congr 1
        congr 1
        cases r2 <;> simp [discount_cumsum]
      | succ n =>
        simp only [discount_cumsum, List.getD_cons_succ]
        exact ih n (by simpa using ht)

/-- C4: for every non-empty reward list `x` and discount `γ`, the output `g`
of `discount_cumsum` has the same length as `x`, satisfies
`g[L-1] = x[L-1]`, and `g[t] = x[t] + γ * g[t+1]` for every `t < L-1`. -/
theorem c4_discount_cumsum_recurrence (x : List ℚ) (γ : ℚ) (t : ℕ) (hx : x ≠ []) :
    (discount_cumsum x γ).length = x.length ∧
    (discount_cumsum x γ).getD (x.length - 1) 0 = x.getD (x.length - 1) 0 ∧
    (t + 1 < x.length →
      (discount_cumsum x γ).getD t 0 =
        x.getD t 0 + γ * (discount_cumsum x γ).getD (t + 1) 0) :=
  ⟨discount_cumsum_length x γ, discount_cumsum_last x γ hx,
    fun ht => discount_cumsum_rec x γ t ht⟩

/-- Closed instance of `c4_discount_cumsum_recurrence` at `x = [1, 2, 3]`,
`γ = 2`, `t = 0`. -/
theorem c4_discount_cumsum_recurrence_witness :
    (discount_cumsum [1, 2, 3] 2).length = 3 ∧
    (discount_cumsum [1, 2, 3] 2).getD 2 0 = 3 ∧
    (discount_cumsum [1, 2, 3] 2).getD 0 0 =
      1 + 2 * (discount_cumsum [1, 2, 3] 2).getD 1 0 := by
  obtain ⟨h1, h2, h3⟩ := c4_discount_cumsum_recurrence [1, 2, 3] 2 0 (by decide)
  exact ⟨h1, by simpa using h2, by simpa using h3 (by decide)⟩

lemma suffixSums_cons (a : ℚ) (r : List ℚ) :
    suffixSums (a :: r) = (a + r.sum) :: suffixSums r := by
  unfold suffixSums
  rw [List.length_cons, List.range_succ_eq_map, List.map_cons, List.map_map]
  simp

lemma discount_cumsum_one (r : List ℚ) : discount_cumsum r 1 = suffixSums r := by
  induction r with
  | nil => rfl
  | cons a rest ih =>
    cases rest with
    | nil =>
      show _ = List.map _ (List.range 1)
      rw [show List.range 1 = [0] from rfl]
      simp [discount_cumsum, suffixSums]
    | cons b r2 =>
      rw [suffixSums_cons]
      simp only [discount_cumsum]
      rw [ih, suffixSums_cons]
      simp [List.sum_cons]

/-! ### The trajectory store (`D4RLTrajectoryDataset.__init__`, lines 127–155)

A persisted trajectory record is a dict; a missing key raises `KeyError` on
access.  We model the three fields the spec names as `Option`s: `none`
means the key is absent.  `__init__` accesses `traj['observations']` (for
`traj_len` and the statistics) and `traj['rewards']` (for the returns-to-go)
of every record, but never touches `traj['actions']` and never compares the
three sequence lengths. -/

/-- One raw persisted trajectory record (a pickled dict). -/
structure RawTraj where
  observations : Option (List Vec)
  actions : Option (List Vec)
  rewards : Option (List ℚ)
deriving DecidableEq, Repr

/-- One trajectory as held by the store after `__init__`: `returns_to_go`
has been added, `observations` normalized in place.  `actions` stays
whatever the record held (it is only read later, in `__getitem__`). -/
structure STraj where
  observations : List Vec
  actions : Option (List Vec)
  rewards : List ℚ
  returns_to_go : List ℚ
deriving DecidableEq, Repr

/-- The constructed `D4RLTrajectoryDataset`. -/
structure Store where
  trajectories : List STraj
  state_mean : Vec
  state_std : Vec
deriving DecidableEq, Repr

/-- Per-feature sum of a list of rows (`np.sum` along the sample axis),
width `d`. -/
def featSum (d : ℕ) (rows : List Vec) : Vec :=
  rows.foldr (fun r acc => List.zipWith (· + ·) r acc) (List.replicate d 0)

/-- Per-feature mean over the concatenated rows (`np.mean(states, axis=0)`). -/
def featMean (d : ℕ) (rows : List Vec) : Vec :=
  (featSum d rows).map (· / (rows.length : ℚ))

/-- Per-feature population variance (`np.std` squared): the mean of the
squared deviations from the per-feature mean. -/
def featVar (d : ℕ) (rows : List Vec) : Vec :=
  featMean d
    (rows.map (fun r =>
      List.zipWith (fun a m => (a - m) * (a - m)) r (featMean d rows)))

/-- The body of the first `for traj in self.trajectories` loop of
`__init__` for one record: reads `observations` and `rewards` (raising
`KeyError` when absent) and attaches
`returns_to_go = discount_cumsum(rewards, 1.0) / rtg_scale`. -/
def procTraj (rtg_scale : ℚ) (tr : RawTraj) :
    Except String (List Vec × Option (List Vec) × List ℚ × List ℚ) :=
  match tr.observations with
  | none => .error "KeyError: observations"
  | some obs =>
    match tr.rewards with
    | none => .error "KeyError: rewards"
    | some rew =>
      .ok (obs, tr.actions, rew, (discount_cumsum rew 1).map (· / rtg_scale))

/-- The first loop of `__init__` over the whole pickled collection: the
first record with a missing accessed field aborts construction. -/
def procAll (rtg_scale : ℚ) :
    List RawTraj → Except String (List (List Vec × Option (List Vec) × List ℚ × List ℚ))
  | [] => .ok []
  | tr :: rest =>
    match procTraj rtg_scale tr with
    | .error e => .error e
    | .ok p =>
      match procAll rtg_scale rest with
      | .error e => .error e
      | .ok ps => .ok (p :: ps)

/-- `D4RLTrajectoryDataset.__init__` (lines 127–155): run the first loop,
concatenate all raw observation rows, compute `state_mean` and
`state_std = np.std(states, axis=0) + 1e-6`, then normalize every
trajectory's observations in place.  (`min_len` is computed by the source
but never used afterwards, so it is not modelled; `msqrt` is the injected
square root used by `np.std`.) -/
def datasetInit (msqrt : ℚ → ℚ) (trajs : List RawTraj) (rtg_scale : ℚ) :
    Except String Store :=
  match procAll rtg_scale trajs with
  | .error e => .error e
  | .ok processed =>
    let states := (processed.map (fun p => p.1)).flatten
    let d := (states.headD []).length
    let mean := featMean d states
    let std := (featVar d states).map (fun v => msqrt v + 1 / 1000000)
    .ok
      { trajectories :=
          processed.map (fun p =>
            { observations := p.1.map (normRow mean std),
              actions := p.2.1,
              rewards := p.2.2.1,
              returns_to_go := p.2.2.2 }),
        state_mean := mean,
        state_std := std }

lemma procTraj_error_iff (s : ℚ) (tr : RawTraj) :
    (∃ e, procTraj s tr = Except.error e) ↔
      tr.observations = none ∨ tr.rewards = none := by
  obtain ⟨o, a, r⟩ := tr
  cases o <;> cases r <;> simp [procTraj]

lemma procAll_error_iff (s : ℚ) (trajs : List RawTraj) :
    (∃ e, procAll s trajs = Except.error e) ↔
      ∃ tr ∈ trajs, tr.observations = none ∨ tr.rewards = none := by
  induction trajs with
  | nil => simp [procAll]
  | cons tr rest ih =>
    cases hp : procTraj s tr with
    | error e =>
      have htr : tr.observations = none ∨ tr.rewards = none :=
        (procTraj_error_iff s tr).1 ⟨e, hp⟩
      simp only [procAll, hp]
      exact ⟨fun _ => ⟨tr, List.mem_cons_self tr rest, htr⟩, fun _ => ⟨e, rfl⟩⟩
    | ok p =>
      have htr : ¬(tr.observations = none ∨ tr.rewards = none) := by
        intro h
        obtain ⟨e, he⟩ := (procTraj_error_iff s tr).2 h
        rw [hp] at he
        exact Except.noConfusion he
      cases hrest : procAll s rest with
      | error e =>
        have hex : ∃ tr2 ∈ rest, tr2.observations = none ∨ tr2.rewards = none :=
          ih.1 ⟨e, hrest⟩
        obtain ⟨tr2, htr2, hor⟩ := hex
        simp only [procAll, hp, hrest]
        exact ⟨fun _ => ⟨tr2, List.mem_cons_of_mem _ htr2, hor⟩, fun _ => ⟨e, rfl⟩⟩
      | ok ps =>
        simp only [procAll, hp, hrest]
        constructor
        · rintro ⟨e, he⟩
          exact Except.noConfusion he
        · rintro ⟨tr2, htr2, hor⟩
          rcases List.mem_cons.mp htr2 with h | h
          · exact absurd (h ▸ hor) htr
          · obtain ⟨e, he⟩ := ih.2 ⟨tr2, h, hor⟩
            rw [hrest] at he
            exact Except.noConfusion he

/-- C8 (amended): store construction fails if and only if some persisted
record lacks its `observations` or its `rewards` field (the two fields
`__init__` actually reads; the failure is the dict `KeyError`, which aborts
construction).  A record lacking `actions`, or with inconsistent sequence
lengths across observations/actions/rewards, is NOT detected at load. -/
theorem c8_load_failure (msqrt : ℚ → ℚ) (trajs : List RawTraj) (rtg_scale : ℚ) :
    (∃ e, datasetInit msqrt trajs rtg_scale = Except.error e) ↔
      ∃ tr ∈ trajs, tr.observations = none ∨ tr.rewards = none := by
  unfold datasetInit
  cases h : procAll rtg_scale trajs with
  | error e =>
    exact ⟨fun _ => (procAll_error_iff rtg_scale trajs).1 ⟨e, h⟩,
      fun _ => ⟨e, rfl⟩⟩
  | ok ps =>
    constructor
    · rintro ⟨e, he⟩
      exact Except.noConfusion he
    · intro hex
      obtain ⟨e, he⟩ := (procAll_error_iff rtg_scale trajs).2 hex
      rw [h] at he
      exact Except.noConfusion he

/-- C8 counterexample: a persisted record that lacks the required `actions`
field AND has inconsistent sequence lengths (2 observations, 1 reward)
loads successfully — store construction is not aborted, contradicting the
claim that such records fail with a dataset-format error. -/
theorem c8_counterexample :
    ∃ st, datasetInit (fun q => q)
        [{ observations := some [[1], [2]], actions := none, rewards := some [1] }] 1
      = Except.ok st :=
  ⟨_, rfl⟩

lemma procAll_ok_eq (s : ℚ) (trajs : List RawTraj)
    (ps : List (List Vec × Option (List Vec) × List ℚ × List ℚ))
    (h : procAll s trajs = Except.ok ps) :
    ps = trajs.map (fun tr =>
      (tr.observations.getD [], tr.actions, tr.rewards.getD [],
        (discount_cumsum (tr.rewards.getD []) 1).map (· / s))) := by
  induction trajs generalizing ps with
  | nil =>
    simp only [procAll] at h
    cases h
    rfl
  | cons tr rest ih =>
    obtain ⟨o, a, r⟩ := tr
    cases o with
    | none => simp [procAll, procTraj] at h
    | some obs =>
      cases r with
      | none => simp [procAll, procTraj] at h
      | some rew =>
        simp only [procAll, procTraj] at h
        cases hrest : procAll s rest with
        | error e =>
          rw [hrest] at h
          exact Except.noConfusion h
        | ok ps2 =>
          rw [hrest] at h
          cases h
          simp [ih ps2 hrest]

/-- The concatenation of all raw (pre-normalization) observation rows of a
record collection, in order — the `states = np.concatenate(states, axis=0)`
of `__init__`. -/
def rawRows (trajs : List RawTraj) : List Vec :=
  (trajs.map (fun tr => tr.observations.getD [])).flatten

/-- The feature width of the concatenated raw observations. -/
def rawDim (trajs : List RawTraj) : ℕ := ((rawRows trajs).headD []).length

/-- The `state_std` vector `__init__` computes:
`np.std(states, axis=0) + 1e-6`, with the square root injected. -/
def storeStd (msqrt : ℚ → ℚ) (trajs : List RawTraj) : Vec :=
  (featVar (rawDim trajs) (rawRows trajs)).map (fun v => msqrt v + 1 / 1000000)

/-- Full characterization of a successful `datasetInit` in terms of the raw
records: statistics are those of the concatenated raw observations, and the
store holds each record with observations normalized once and
`returns_to_go = discount_cumsum(rewards, 1.0) / rtg_scale`. -/
lemma datasetInit_ok_eq (msqrt : ℚ → ℚ) (trajs : List RawTraj) (rtg_scale : ℚ)
    (st : Store) (h : datasetInit msqrt trajs rtg_scale = Except.ok st) :
    st.state_mean = featMean (rawDim trajs) (rawRows trajs) ∧
    st.state_std = storeStd msqrt trajs ∧
    st.trajectories = trajs.map (fun tr =>
      { observations := (tr.observations.getD []).map
          (normRow (featMean (rawDim trajs) (rawRows trajs)) (storeStd msqrt trajs)),
        actions := tr.actions,
        rewards := tr.rewards.getD [],
        returns_to_go := (discount_cumsum (tr.rewards.getD []) 1).map
          (· / rtg_scale) }) := by
  unfold datasetInit at h
  cases hp : procAll rtg_scale trajs with
  | error e =>
    rw [hp] at h
    exact Except.noConfusion h
  | ok ps =>
    rw [hp] at h
    simp only at h
    cases h
    have hps := procAll_ok_eq rtg_scale trajs ps hp
    subst hps
    have hstates : (List.map (fun p => p.1) (trajs.map (fun tr =>
        (tr.observations.getD [], tr.actions, tr.rewards.getD [],
          (discount_cumsum (tr.rewards.getD []) 1).map (· / rtg_scale))))).flatten
        = rawRows trajs := by
      rw [List.map_map]
      rfl
    refine ⟨?_, ?_, ?_⟩
    · simp only [hstates]
      rfl
    · simp only [hstates]
      rfl
    · simp only [hstates, List.map_map]
      rfl

lemma datasetInit_ok_length (msqrt : ℚ → ℚ) (trajs : List RawTraj)
    (rtg_scale : ℚ) (st : Store)
    (h : datasetInit msqrt trajs rtg_scale = Except.ok st) :
    st.trajectories.length = trajs.length := by
  rw [(datasetInit_ok_eq msqrt trajs rtg_scale st h).2.2, List.length_map]

lemma datasetInit_rtg (msqrt : ℚ → ℚ) (trajs : List RawTraj) (rtg_scale : ℚ)
    (st : Store) (i : ℕ) (h : datasetInit msqrt trajs rtg_scale = Except.ok st)
    (hi : i < st.trajectories.length) :
    (st.trajectories.getD i ⟨[], none, [], []⟩).returns_to_go =
      (suffixSums ((trajs.getD i ⟨none, none, none⟩).rewards.getD [])).map
        (· / rtg_scale) := by
  have hlen := datasetInit_ok_length msqrt trajs rtg_scale st h
  have hi2 : i < trajs.length := hlen ▸ hi
  rw [(datasetInit_ok_eq msqrt trajs rtg_scale st h).2.2]
  rw [List.getD_eq_getElem?_getD, List.getElem?_map,
    List.getElem?_eq_getElem hi2, List.getD_eq_getElem?_getD,
    List.getElem?_eq_getElem hi2]
  simp [discount_cumsum_one]

/-- The concrete record of the C5 end-to-end scenario: a one-step dummy
observation/action with rewards `[1, 1, 1]`. -/
def c5Record : RawTraj :=
  { observations := some [[0]], actions := some [[0]], rewards := some [1, 1, 1] }

/-- C5: after store construction, every trajectory's `returns_to_go` equals
the undiscounted suffix sums `t ↦ sum(rewards[t:])` divided by the single
caller-supplied `rtg_scale` (γ is fixed at `1.0` in `__init__`); in
particular rewards `[1,1,1]` with `rtg_scale = 1` yield `[3,2,1]`. -/
theorem c5_store_returns_to_go (msqrt : ℚ → ℚ) (trajs : List RawTraj)
    (rtg_scale : ℚ) (st : Store) (i : ℕ)
    (h : datasetInit msqrt trajs rtg_scale = Except.ok st)
    (hi : i < st.trajectories.length) :
    ((st.trajectories.getD i ⟨[], none, [], []⟩).returns_to_go =
      (suffixSums ((trajs.getD i ⟨none, none, none⟩).rewards.getD [])).map
        (· / rtg_scale)) ∧
    (∃ st3, datasetInit (fun q => q) [c5Record] 1 = Except.ok st3 ∧
      (st3.trajectories.getD 0 ⟨[], none, [], []⟩).returns_to_go = [3, 2, 1]) := by
  refine ⟨datasetInit_rtg msqrt trajs rtg_scale st i h hi, ?_⟩
  have hok : ∃ st3, datasetInit (fun q => q) [c5Record] 1 = Except.ok st3 := by
    unfold datasetInit
    cases hp : procAll 1 [c5Record] with
    | error e =>
      exfalso
      obtain ⟨tr, htr, hor⟩ := (procAll_error_iff 1 [c5Record]).1 ⟨e, hp⟩
      simp only [List.mem_singleton] at htr
      rw [htr] at hor
      simp [c5Record] at hor
    | ok ps => exact ⟨_, rfl⟩
  obtain ⟨st3, h3⟩ := hok
  refine ⟨st3, h3, ?_⟩
  have hlen := datasetInit_ok_length _ _ _ _ h3
  have hr := datasetInit_rtg (fun q => q) [c5Record] 1 st3 0 h3
    (by rw [hlen]; simp)
  rw [hr]
  rw [show (([c5Record].getD 0 ⟨none, none, none⟩).rewards.getD []) = [1, 1, 1]
    from rfl]
  rw [show suffixSums [1, 1, 1] = [3, 2, 1] by
    unfold suffixSums
    rw [show List.range ([1, 1, 1] : List ℚ).length = [0, 1, 2] from rfl]
    norm_num]
  norm_num

lemma map_getD {α β : Type} (f : α → β) (l : List α) (j : ℕ) (dA : α) (dB : β)
    (h : j < l.length) : (l.map f).getD j dB = f (l.getD j dA) := by
  rw [List.getD_eq_getElem?_getD, List.getD_eq_getElem?_getD, List.getElem?_map,
    List.getElem?_eq_getElem h]
  rfl

lemma zipWith_getD (f : ℚ → ℚ → ℚ) (a b : List ℚ) (j : ℕ)
    (ha : j < a.length) (hb : j < b.length) :
    (List.zipWith f a b).getD j 0 = f (a.getD j 0) (b.getD j 0) := by
  rw [List.getD_eq_getElem?_getD, List.getD_eq_getElem?_getD,
    List.getD_eq_getElem?_getD, List.getElem?_zipWith,
    List.getElem?_eq_getElem ha, List.getElem?_eq_getElem hb]
  rfl

lemma featSum_length (d : ℕ) (rows : List Vec)
    (hU : ∀ r ∈ rows, r.length = d) : (featSum d rows).length = d := by
  induction rows with
  | nil => simp [featSum]
  | cons r rs ih =>
    show (List.zipWith (· + ·) r (featSum d rs)).length = d
    rw [List.length_zipWith, hU r (List.mem_cons_self r rs),
      ih (fun r2 h2 => hU r2 (List.mem_cons_of_mem r h2))]
    exact Nat.min_self d

lemma featSum_getD (d : ℕ) (rows : List Vec) (j : ℕ)
    (hU : ∀ r ∈ rows, r.length = d) (hj : j < d) :
    (featSum d rows).getD j 0 = (rows.map (fun r => r.getD j 0)).sum := by
  induction rows with
  | nil =>
    show (List.replicate d (0 : ℚ)).getD j 0 = _
    rw [List.getD_eq_getElem?_getD, List.getElem?_replicate_of_lt hj]
    simp
  | cons r rs ih =>
    show (List.zipWith (· + ·) r (featSum d rs)).getD j 0 = _
    rw [zipWith_getD _ _ _ j (by rw [hU r (List.mem_cons_self r rs)]; exact hj)
      (by rw [featSum_length d rs (fun r2 h2 => hU r2 (List.mem_cons_of_mem r h2))]
          exact hj)]
    rw [ih (fun r2 h2 => hU r2 (List.mem_cons_of_mem r h2))]
    simp

lemma featMean_length (d : ℕ) (rows : List Vec)
    (hU : ∀ r ∈ rows, r.length = d) : (featMean d rows).length = d := by
  unfold featMean
  rw [List.length_map]
  exact featSum_length d rows hU

lemma featMean_getD (d : ℕ) (rows : List Vec) (j : ℕ)
    (hU : ∀ r ∈ rows, r.length = d) (hj : j < d) :
    (featMean d rows).getD j 0 =
      (rows.map (fun r => r.getD j 0)).sum / (rows.length : ℚ) := by
  unfold featMean
  rw [map_getD _ _ j 0 0 (by rw [featSum_length d rows hU]; exact hj),
    featSum_getD d rows j hU hj]

lemma featVar_rows_uniform (d : ℕ) (rows : List Vec)
    (hU : ∀ r ∈ rows, r.length = d) :
    ∀ r2 ∈ rows.map (fun r =>
      List.zipWith (fun a m => (a - m) * (a - m)) r (featMean d rows)),
      r2.length = d := by
  intro r2 h2
  obtain ⟨r, hr, rfl⟩ := List.mem_map.mp h2
  rw [List.length_zipWith, hU r hr, featMean_length d rows hU]
  exact Nat.min_self d

lemma featVar_length (d : ℕ) (rows : List Vec)
    (hU : ∀ r ∈ rows, r.length = d) : (featVar d rows).length = d := by
  unfold featVar
  exact featMean_length d _ (featVar_rows_uniform d rows hU)

lemma featVar_getD (d : ℕ) (rows : List Vec) (j : ℕ)
    (hU : ∀ r ∈ rows, r.length = d) (hj : j < d) :
    (featVar d rows).getD j 0 =
      (rows.map (fun r =>
        (r.getD j 0 - (rows.map (fun r2 => r2.getD j 0)).sum / (rows.length : ℚ)) *
        (r.getD j 0 - (rows.map (fun r2 => r2.getD j 0)).sum / (rows.length : ℚ)))).sum
      / (rows.length : ℚ) := by
  unfold featVar
  rw [featMean_getD d _ j (featVar_rows_uniform d rows hU) hj]
  rw [List.length_map, List.map_map]
  congr 2
  apply List.map_congr_left
  intro r hr
  show (List.zipWith (fun a m => (a - m) * (a - m)) r (featMean d rows)).getD j 0 = _
  rw [zipWith_getD _ _ _ j (by rw [hU r hr]; exact hj)
    (by rw [featMean_length d rows hU]; exact hj)]
  rw [featMean_getD d rows j hU hj]

/-- C6: after store construction, `state_mean` and `state_std` are the
per-feature mean and (standard deviation + 1e-6) of the concatenation of
all trajectories' raw, pre-normalization observations, and every stored
trajectory's observations equal `(raw - state_mean) / state_std`, the
normalization being applied exactly once during load. -/
theorem c6_store_normalization (msqrt : ℚ → ℚ) (trajs : List RawTraj)
    (rtg_scale : ℚ) (st : Store)
    (h : datasetInit msqrt trajs rtg_scale = Except.ok st)
    (hU : ∀ r ∈ rawRows trajs, r.length = rawDim trajs) :
    st.state_mean = featMean (rawDim trajs) (rawRows trajs) ∧
    st.state_std = storeStd msqrt trajs ∧
    (∀ j, j < rawDim trajs →
      st.state_mean.getD j 0 =
        ((rawRows trajs).map (fun r => r.getD j 0)).sum /
          ((rawRows trajs).length : ℚ)) ∧
    (∀ j, j < rawDim trajs →
      st.state_std.getD j 0 =
        msqrt (((rawRows trajs).map (fun r =>
            (r.getD j 0 - ((rawRows trajs).map (fun r2 => r2.getD j 0)).sum /
              ((rawRows trajs).length : ℚ)) *
            (r.getD j 0 - ((rawRows trajs).map (fun r2 => r2.getD j 0)).sum /
              ((rawRows trajs).length : ℚ)))).sum / ((rawRows trajs).length : ℚ))
          + 1 / 1000000) ∧
    st.trajectories.map (fun tr => tr.observations) =
      trajs.map (fun tr => (tr.observations.getD []).map
        (normRow st.state_mean st.state_std)) := by
  obtain ⟨hmean, hstd, htrajs⟩ := datasetInit_ok_eq msqrt trajs rtg_scale st h
  refine ⟨hmean, hstd, ?_, ?_, ?_⟩
  · intro j hj
    rw [hmean]
    exact featMean_getD _ _ j hU hj
  · intro j hj
    rw [hstd]
    unfold storeStd
    rw [map_getD _ _ j 0 0 (by rw [featVar_length _ _ hU]; exact hj)]
    rw [featVar_getD _ _ j hU hj]
  · rw [htrajs, List.map_map, hmean, hstd]
    rfl

/-! ### The window extractor (`D4RLTrajectoryDataset.__getitem__`, lines 163–228)

The `random.randint(0, traj_len - context_len)` draw is injected as the
parameter `si`; its admissible support is exactly `0 ≤ si ≤ L - context_len`
(the inclusive range of `randint`).  The final dtype conversions
(`.to(dtype=...)`, and the `discrete_action` int cast) change tensor dtypes
only, never values, and are not modelled over `ℚ`. -/

/-- The tuple returned by `__getitem__`. -/
structure Window where
  timesteps : List ℕ
  states : List Vec
  actions : List Vec
  returns_to_go : List ℚ
  traj_mask : List ℕ
deriving DecidableEq, Repr

/-- `__getitem__` on one stored trajectory.  Accessing the `actions` key of
a record that lacks it raises `KeyError` (the store never validated it). -/
def getItem (context_len : ℕ) (traj : STraj) (si : ℕ) : Except String Window :=
  let L := traj.observations.length
  if context_len ≤ L then
    match traj.actions with
    | none => .error "KeyError: actions"
    | some acts =>
      .ok
        { timesteps := List.range' si context_len,
          states := (traj.observations.drop si).take context_len,
          actions := (acts.drop si).take context_len,
          returns_to_go := (traj.returns_to_go.drop si).take context_len,
          traj_mask := List.replicate context_len 1 }
  else
    match traj.actions with
    | none => .error "KeyError: actions"
    | some acts =>
      let padding_len := context_len - L
      .ok
        { timesteps := List.range context_len,
          states := traj.observations ++
            List.replicate padding_len (vzero (traj.observations.headD []).length),
          actions := acts ++
            List.replicate padding_len (vzero (acts.headD []).length),
          returns_to_go := traj.returns_to_go ++ List.replicate padding_len 0,
          traj_mask := List.replicate L 1 ++ List.replicate padding_len 0 }

lemma drop_take_getD {α : Type} (l : List α) (si cl j : ℕ) (d : α)
    (hj : j < cl) :
    ((l.drop si).take cl).getD j d = l.getD (si + j) d := by
  rw [List.getD_eq_getElem?_getD, List.getD_eq_getElem?_getD,
    List.getElem?_take_of_lt hj, List.getElem?_drop]

lemma drop_take_length {α : Type} (l : List α) (si cl : ℕ)
    (h : si + cl ≤ l.length) : ((l.drop si).take cl).length = cl := by
  rw [List.length_take, List.length_drop]
  omega

/-- C2: for a trajectory of length `L ≥ context_len` and any admissible
offset `si ∈ [0, L - context_len]` (the support of the uniform
`random.randint(0, L - context_len)` draw), `__getitem__` returns the
slices `[si, si + context_len)` of states/actions/returns-to-go, timesteps
`si, si+1, …, si+context_len-1`, and an all-ones mask; when
`L = context_len` the only admissible offset is `si = 0`, so the full
unmasked trajectory is returned deterministically. -/
theorem c2_window_slicing (context_len si : ℕ) (traj : STraj) (acts : List Vec)
    (ha : traj.actions = some acts)
    (hacts : acts.length = traj.observations.length)
    (hrtg : traj.returns_to_go.length = traj.observations.length)
    (hL : context_len ≤ traj.observations.length)
    (hsi : si ≤ traj.observations.length - context_len) :
    ∃ w : Window, getItem context_len traj si = Except.ok w ∧
      w.timesteps = List.range' si context_len ∧
      w.states.length = context_len ∧
      w.actions.length = context_len ∧
      w.returns_to_go.length = context_len ∧
      (∀ j, j < context_len →
        w.timesteps.getD j 0 = si + j ∧
        w.states.getD j [] = traj.observations.getD (si + j) [] ∧
        w.actions.getD j [] = acts.getD (si + j) [] ∧
        w.returns_to_go.getD j 0 = traj.returns_to_go.getD (si + j) 0) ∧
      w.traj_mask = List.replicate context_len 1 ∧
      (traj.observations.length = context_len → si = 0) := by
  have hsum : si + context_len ≤ traj.observations.length := by omega
  have hw : getItem context_len traj si = Except.ok
      { timesteps := List.range' si context_len,
        states := (traj.observations.drop si).take context_len,
        actions := (acts.drop si).take context_len,
        returns_to_go := (traj.returns_to_go.drop si).take context_len,
        traj_mask := List.replicate context_len 1 } := by
    unfold getItem
    rw [if_pos hL, ha]
  refine ⟨_, hw, ?_, ?_, ?_, ?_, ?_, ?_, ?_⟩
  · rfl
  · exact drop_take_length _ si context_len hsum
  · exact drop_take_length _ si context_len (by omega)
  · exact drop_take_length _ si context_len (by omega)
  · intro j hj
    refine ⟨?_, ?_, ?_, ?_⟩
    · rw [List.getD_eq_getElem?_getD,
        List.getElem?_eq_getElem (by rw [List.length_range']; exact hj)]
      simp [List.getElem_range']
    · exact drop_take_getD _ si context_len j [] hj
    · exact drop_take_getD _ si context_len j [] hj
    · exact drop_take_getD _ si context_len j 0 hj
  · rfl
  · intro heq
    omega

/-- C3: for a trajectory of length `L < context_len`, `__getitem__` returns
sequences of length exactly `context_len` whose first `L` positions are the
full stored trajectory, whose padded tail positions are exactly zero, with
`traj_mask = 1×L ++ 0×(context_len-L)` (so `sum(traj_mask) = L`) and
`timesteps = 0, 1, …, context_len-1` (restarting at 0, not at the
trajectory's absolute episode positions). -/
theorem c3_window_padding (context_len : ℕ) (traj : STraj) (acts : List Vec)
    (ha : traj.actions = some acts)
    (hacts : acts.length = traj.observations.length)
    (hrtg : traj.returns_to_go.length = traj.observations.length)
    (hL : traj.observations.length < context_len) :
    ∃ w : Window, getItem context_len traj 0 = Except.ok w ∧
      w.timesteps = List.range context_len ∧
      w.states.length = context_len ∧
      w.actions.length = context_len ∧
      w.returns_to_go.length = context_len ∧
      (∀ j, j < traj.observations.length →
        w.states.getD j [] = traj.observations.getD j [] ∧
        w.actions.getD j [] = acts.getD j [] ∧
        w.returns_to_go.getD j 0 = traj.returns_to_go.getD j 0) ∧
      (∀ j, traj.observations.length ≤ j → j < context_len →
        w.states.getD j [] = vzero (traj.observations.headD []).length ∧
        w.actions.getD j [] = vzero (acts.headD []).length ∧
        w.returns_to_go.getD j 0 = 0) ∧
      w.traj_mask = List.replicate traj.observations.length 1 ++
        List.replicate (context_len - traj.observations.length) 0 ∧
      w.traj_mask.sum = traj.observations.length := by
  have hnle : ¬ context_len ≤ traj.observations.length := by omega
  have hw : getItem context_len traj 0 = Except.ok
      { timesteps := List.range context_len,
        states := traj.observations ++
          List.replicate (context_len - traj.observations.length)
            (vzero (traj.observations.headD []).length),
        actions := acts ++
          List.replicate (context_len - traj.observations.length)
            (vzero (acts.headD []).length),
        returns_to_go := traj.returns_to_go ++
          List.replicate (context_len - traj.observations.length) 0,
        traj_mask := List.replicate traj.observations.length 1 ++
          List.replicate (context_len - traj.observations.length) 0 } := by
    unfold getItem
    rw [if_neg hnle, ha]
  refine ⟨_, hw, ?_, ?_, ?_, ?_, ?_, ?_, ?_, ?_⟩
  · rfl
  · rw [List.length_append, List.length_replicate]
    omega
  · rw [List.length_append, List.length_replicate, hacts]
    omega
  · rw [List.length_append, List.length_replicate, hrtg]
    omega
  · intro j hj
    refine ⟨?_, ?_, ?_⟩
    · rw [List.getD_eq_getElem?_getD, List.getElem?_append_left hj,
        List.getD_eq_getElem?_getD]
    · rw [List.getD_eq_getElem?_getD,
        List.getElem?_append_left (by rw [hacts]; exact hj),
        List.getD_eq_getElem?_getD]
    · rw [List.getD_eq_getElem?_getD,
        List.getElem?_append_left (by rw [hrtg]; exact hj),
        List.getD_eq_getElem?_getD]
  · intro j hjl hjr
    refine ⟨?_, ?_, ?_⟩
    · rw [List.getD_eq_getElem?_getD, List.getElem?_append_right hjl,
        List.getElem?_replicate_of_lt (by omega)]
      rfl
    · rw [List.getD_eq_getElem?_getD,
        List.getElem?_append_right (by rw [hacts]; exact hjl),
        List.getElem?_replicate_of_lt (by rw [hacts]; omega)]
      rfl
    · rw [List.getD_eq_getElem?_getD,
        List.getElem?_append_right (by rw [hrtg]; exact hjl),
        List.getElem?_replicate_of_lt (by rw [hrtg]; omega)]
      rfl
  · rfl
  · rw [List.sum_append, List.sum_replicate, List.sum_replicate]
    simp

/-! ### The score normalizer (`get_d4rl_normalized_score`, lines 20–22)

`REF_MIN_SCORE` and `REF_MAX_SCORE` are external lookup tables (imported
from `d4rl_infos`); they are modelled as injected partial maps.  A Python
dict access on a missing key raises `KeyError`; `REF_MIN_SCORE[env_name]`
is evaluated first. -/

/-- `get_d4rl_normalized_score(score, env_name)`:
`(score - REF_MIN_SCORE[env_name]) / (REF_MAX_SCORE[env_name] - REF_MIN_SCORE[env_name])`. -/
def get_d4rl_normalized_score (refMin refMax : String → Option ℚ)
    (score : ℚ) (env_name : String) : Except String ℚ :=
  match refMin env_name with
  | none => .error "KeyError"
  | some lo =>
    match refMax env_name with
    | none => .error "KeyError"
    | some hi => .ok ((score - lo) / (hi - lo))

/-- C9: score normalization returns
`(raw - ref_min[env]) / (ref_max[env] - ref_min[env])` for every
environment with registered (distinct) reference bounds — in particular `0`
at `raw = ref_min` and `1` at `raw = ref_max` — and fails (the dict
`KeyError`) for every environment missing from either reference table. -/
theorem c9_normalized_score (refMin refMax : String → Option ℚ)
    (env_name : String) (lo hi : ℚ)
    (hlo : refMin env_name = some lo) (hhi : refMax env_name = some hi)
    (hne : lo ≠ hi) :
    (∀ s, get_d4rl_normalized_score refMin refMax s env_name =
      Except.ok ((s - lo) / (hi - lo))) ∧
    get_d4rl_normalized_score refMin refMax lo env_name = Except.ok 0 ∧
    get_d4rl_normalized_score refMin refMax hi env_name = Except.ok 1 ∧
    (∀ env2 s, refMin env2 = none ∨ refMax env2 = none →
      get_d4rl_normalized_score refMin refMax s env2 =
        Except.error "KeyError") := by
  have hform : ∀ s, get_d4rl_normalized_score refMin refMax s env_name =
      Except.ok ((s - lo) / (hi - lo)) := by
    intro s
    unfold get_d4rl_normalized_score
    rw [hlo, hhi]
  refine ⟨hform, ?_, ?_, ?_⟩
  · rw [hform lo, sub_self, zero_div]
  · rw [hform hi, div_self (sub_ne_zero_of_ne (Ne.symm hne))]
  · intro env2 s h
    unfold get_d4rl_normalized_score
    rcases h with h | h
    · rw [h]
    · cases hmin : refMin env2 with
      | none => rfl
      | some l => rw [h]

/-! ### The autoregressive evaluator (`evaluate_on_env`, lines 29–123)

The environment is the black-box collaborator with `reset`/`step`; it is
modelled as a deterministic transition system over an arbitrary internal
state type `E` (`step` also returns the next observation, the reward and
the `terminated` / `truncated` flags).  The policy (`model.forward`) is a
function from the four window tensors (batch size is fixed to 1 in the
source, so the batch dimension is dropped) to the list of per-position
action predictions; the two further outputs of `forward` are discarded by
the source, so they are not modelled. -/

/-- The external environment: `reset() -> (state, info)` and
`step(action) -> (state, reward, terminated, truncated, info)`. -/
structure Env (E : Type) where
  obs_dim : ℕ
  act_dim : ℕ
  reset : E × Vec
  step : E → Vec → E × Vec × ℚ × Bool × Bool

/-- The policy: `model.forward(timesteps, states, actions, returns_to_go)`
restricted to its action-prediction output (positions along the window). -/
abbrev Policy : Type := List ℕ → List Vec → List Vec → List ℚ → List Vec

/-- The resolved configuration of one `evaluate_on_env` call (after the
`state_mean is None` / `state_std is None` substitution and the
`discrete_action` choice of `act_dim`). -/
structure EvalCtx (E : Type) where
  model : Policy
  env : Env E
  context_len : ℕ
  rtg_target : ℚ
  rtg_scale : ℚ
  max_test_ep_len : ℕ
  state_mean : Vec
  state_std : Vec
  act_dim : ℕ

/-- The per-episode mutable state of the inner loop: the three pre-allocated
rollout buffers plus the running scalars. -/
structure EpState (E : Type) where
  states : List Vec
  actions : List Vec
  rewards_to_go : List ℚ
  envSt : E
  runningState : Vec
  runningReward : ℚ
  runningRtg : ℚ

/-- `timesteps = torch.arange(0, max_test_ep_len)`, allocated once. -/
def timestepsBuf (ctx : EvalCtx E) : List ℕ := List.range ctx.max_test_ep_len

/-- The action the policy produces at step `t` (lines 93–108): if
`t < context_len` the forward pass receives the fixed prefix `[:context_len]`
of every buffer and the prediction at position `t` is used; otherwise it
receives the trailing slice `[t-context_len+1 : t+1]` and the prediction at
the last position (`[-1]`) is used.  `states1`/`rtgs1` are the buffers
after the step-`t` writes of lines 86–91, which precede the forward pass. -/
def chosenAct (ctx : EvalCtx E) (t : ℕ) (s : EpState E) : Vec :=
  let states1 := s.states.set t (normRow ctx.state_mean ctx.state_std s.runningState)
  let rtgs1 := s.rewards_to_go.set t (s.runningRtg - s.runningReward / ctx.rtg_scale)
  let cl := ctx.context_len
  if t < cl then
    (ctx.model ((timestepsBuf ctx).take cl) (states1.take cl)
      (s.actions.take cl) (rtgs1.take cl)).getD t (vzero ctx.act_dim)
  else
    (ctx.model (((timestepsBuf ctx).drop (t - cl + 1)).take cl)
      ((states1.drop (t - cl + 1)).take cl)
      ((s.actions.drop (t - cl + 1)).take cl)
      ((rtgs1.drop (t - cl + 1)).take cl)).getLastD (vzero ctx.act_dim)

/-- One iteration of the inner `for t in range(max_test_ep_len)` loop
(lines 82–118): write the normalized state and the updated running
return-to-go into the buffers, run the forward pass, step the environment,
write the executed action into the buffer.  Returns the updated state, the
`terminated or truncated` flag, and the reward of this step. -/
def stepOnce (ctx : EvalCtx E) (t : ℕ) (s : EpState E) : EpState E × Bool × ℚ :=
  let states1 := s.states.set t (normRow ctx.state_mean ctx.state_std s.runningState)
  let rtg1 := s.runningRtg - s.runningReward / ctx.rtg_scale
  let rtgs1 := s.rewards_to_go.set t rtg1
  let act := chosenAct ctx t s
  let res := ctx.env.step s.envSt act
  ({ states := states1,
     actions := s.actions.set t act,
     rewards_to_go := rtgs1,
     envSt := res.1,
     runningState := res.2.1,
     runningReward := res.2.2.1,
     runningRtg := rtg1 },
   res.2.2.2.1 || res.2.2.2.2, res.2.2.1)

/-- The inner loop from step `t` with `fuel` iterations left: returns the
final episode state, the step index after the loop (= the episode's
`total_timesteps` contribution when started at `t = 0`) and the
accumulated reward. -/
def runLoop (ctx : EvalCtx E) : ℕ → ℕ → EpState E → ℚ → EpState E × ℕ × ℚ
  | t, 0, s, acc => (s, t, acc)
  | t, fuel + 1, s, acc =>
    let r3 := stepOnce ctx t s
    if r3.2.1 then (r3.1, t + 1, acc + r3.2.2)
    else runLoop ctx (t + 1) fuel r3.1 (acc + r3.2.2)

/-- Episode initialization (lines 66–80): zero placeholder buffers,
`env.reset()`, `running_reward = 0`, `running_rtg = rtg_target / rtg_scale`. -/
def initEp (ctx : EvalCtx E) : EpState E :=
  { states := List.replicate ctx.max_test_ep_len (vzero ctx.env.obs_dim),
    actions := List.replicate ctx.max_test_ep_len (vzero ctx.act_dim),
    rewards_to_go := List.replicate ctx.max_test_ep_len 0,
    envSt := ctx.env.reset.1,
    runningState := ctx.env.reset.2,
    runningReward := 0,
    runningRtg := ctx.rtg_target / ctx.rtg_scale }

/-- One full episode: the inner loop from `t = 0` with
`max_test_ep_len` iterations of fuel.  Returns (total reward, steps). -/
def runEpisode (ctx : EvalCtx E) : ℚ × ℕ :=
  let r := runLoop ctx 0 ctx.max_test_ep_len (initEp ctx) 0
  (r.2.2, r.2.1)

/-- The final episode state of one episode (for buffer inspection). -/
def episodeFinal (ctx : EvalCtx E) : EpState E :=
  (runLoop ctx 0 ctx.max_test_ep_len (initEp ctx) 0).1

/-- The number of environment steps one episode executes. -/
def episodeSteps (ctx : EvalCtx E) : ℕ :=
  (runLoop ctx 0 ctx.max_test_ep_len (initEp ctx) 0).2.1

/-- The state of the inner loop after `n` executed iterations starting at
step `t` (ignoring termination; used to name the loop's intermediate
states). -/
def iterFrom (ctx : EvalCtx E) : ℕ → EpState E → ℕ → EpState E
  | _, s, 0 => s
  | t, s, n + 1 => iterFrom ctx (t + 1) (stepOnce ctx t s).1 n

/-- The loop state just before step `t` of an episode. -/
def stateAt (ctx : EvalCtx E) (t : ℕ) : EpState E :=
  iterFrom ctx 0 (initEp ctx) t

/-- The accumulation of `total_reward` / `total_timesteps` over the outer
`for _ in range(num_eval_ep)` loop. -/
def evalTotals (ctx : EvalCtx E) : ℕ → ℚ × ℕ
  | 0 => (0, 0)
  | n + 1 =>
    let tot := evalTotals ctx n
    let ep := runEpisode ctx
    (tot.1 + ep.1, tot.2 + ep.2)

/-- Resolution of the optional `state_mean` / `state_std` arguments and of
`act_dim` (lines 42–55): `None` becomes `torch.zeros` / `torch.ones` of the
observation width, and `discrete_action` forces `act_dim = 1`. -/
def mkCtx (model : Policy) (env : Env E) (context_len : ℕ)
    (rtg_target rtg_scale : ℚ) (max_test_ep_len : ℕ)
    (state_mean state_std : Option Vec) (discrete_action : Bool) : EvalCtx E :=
  { model := model,
    env := env,
    context_len := context_len,
    rtg_target := rtg_target,
    rtg_scale := rtg_scale,
    max_test_ep_len := max_test_ep_len,
    state_mean := state_mean.getD (vzero env.obs_dim),
    state_std := state_std.getD (vones env.obs_dim),
    act_dim := if discrete_action then 1 else env.act_dim }

/-- `evaluate_on_env`: run `num_eval_ep` episodes and return
`(avg_score, avg_ep_len) = (total_reward / num_eval_ep,
total_timesteps / num_eval_ep)`. -/
def evaluate_on_env (model : Policy) (env : Env E) (context_len : ℕ)
    (rtg_target rtg_scale : ℚ) (num_eval_ep max_test_ep_len : ℕ)
    (state_mean state_std : Option Vec) (discrete_action : Bool) : ℚ × ℚ :=
  let ctx := mkCtx model env context_len rtg_target rtg_scale max_test_ep_len
    state_mean state_std discrete_action
  let tot := evalTotals ctx num_eval_ep
  (tot.1 / (num_eval_ep : ℚ), (tot.2 : ℚ) / (num_eval_ep : ℚ))

lemma set_getD_ne {α : Type} (l : List α) (i p : ℕ) (a dflt : α) (h : i ≠ p) :
    (l.set i a).getD p dflt = l.getD p dflt := by
  rw [List.getD_eq_getElem?_getD, List.getD_eq_getElem?_getD,
    List.getElem?_set_ne h]

lemma set_getD_eq {α : Type} (l : List α) (i : ℕ) (a dflt : α)
    (h : i < l.length) : (l.set i a).getD i dflt = a := by
  rw [List.getD_eq_getElem?_getD, List.getElem?_set_self h]
  rfl

lemma stepOnce_states (ctx : EvalCtx E) (t : ℕ) (s : EpState E) :
    ((stepOnce ctx t s).1).states =
      s.states.set t (normRow ctx.state_mean ctx.state_std s.runningState) := rfl

lemma stepOnce_actions (ctx : EvalCtx E) (t : ℕ) (s : EpState E) :
    ((stepOnce ctx t s).1).actions = s.actions.set t (chosenAct ctx t s) := rfl

lemma runLoop_zero (ctx : EvalCtx E) (t : ℕ) (s : EpState E) (acc : ℚ) :
    runLoop ctx t 0 s acc = (s, t, acc) := rfl

lemma runLoop_succ (ctx : EvalCtx E) (t fuel : ℕ) (s : EpState E) (acc : ℚ) :
    runLoop ctx t (fuel + 1) s acc =
      if (stepOnce ctx t s).2.1 then
        ((stepOnce ctx t s).1, t + 1, acc + (stepOnce ctx t s).2.2)
      else runLoop ctx (t + 1) fuel ((stepOnce ctx t s).1)
        (acc + (stepOnce ctx t s).2.2) := by
  simp only [runLoop]

lemma runLoop_end_le (ctx : EvalCtx E) (fuel : ℕ) :
    ∀ (t : ℕ) (s : EpState E) (acc : ℚ),
      (runLoop ctx t fuel s acc).2.1 ≤ t + fuel := by
  induction fuel with
  | zero =>
    intro t s acc
    rw [runLoop_zero]
    show t ≤ t + 0
    omega
  | succ fuel ih =>
    intro t s acc
    rw [runLoop_succ]
    by_cases hdone : (stepOnce ctx t s).2.1
    · rw [if_pos hdone]
      show t + 1 ≤ t + (fuel + 1)
      omega
    · rw [if_neg hdone]
      have := ih (t + 1) ((stepOnce ctx t s).1) (acc + (stepOnce ctx t s).2.2)
      omega

lemma runLoop_frozen (ctx : EvalCtx E) (fuel : ℕ) :
    ∀ (t : ℕ) (s : EpState E) (acc : ℚ) (p : ℕ) (dA : Vec) (dS : Vec),
      p < t →
      ((runLoop ctx t fuel s acc).1).actions.getD p dA = s.actions.getD p dA ∧
      ((runLoop ctx t fuel s acc).1).states.getD p dS = s.states.getD p dS := by
  induction fuel with
  | zero =>
    intro t s acc p dA dS _
    rw [runLoop_zero]
    exact ⟨rfl, rfl⟩
  | succ fuel ih =>
    intro t s acc p dA dS hp
    rw [runLoop_succ]
    by_cases hdone : (stepOnce ctx t s).2.1
    · rw [if_pos hdone]
      constructor
      · rw [stepOnce_actions]
        exact set_getD_ne _ t p _ dA (by omega)
      · rw [stepOnce_states]
        exact set_getD_ne _ t p _ dS (by omega)
    · rw [if_neg hdone]
      obtain ⟨h1, h2⟩ := ih (t + 1) ((stepOnce ctx t s).1)
        (acc + (stepOnce ctx t s).2.2) p dA dS (by omega)
      constructor
      · rw [h1, stepOnce_actions]
        exact set_getD_ne _ t p _ dA (by omega)
      · rw [h2, stepOnce_states]
        exact set_getD_ne _ t p _ dS (by omega)

/-- The central invariant of the episode loop: for every step `k` the loop
actually executed, the final buffers hold at position `k` exactly the
action chosen at step `k` and the normalized state written at step `k`,
where the step-`k` loop state is `iterFrom` of the start state. -/
lemma runLoop_writes (ctx : EvalCtx E) (fuel : ℕ) :
    ∀ (t : ℕ) (s : EpState E) (acc : ℚ) (k : ℕ),
      t ≤ k → k < (runLoop ctx t fuel s acc).2.1 →
      k < s.actions.length → k < s.states.length →
      ((runLoop ctx t fuel s acc).1).actions.getD k (vzero ctx.act_dim) =
        chosenAct ctx k (iterFrom ctx t s (k - t)) ∧
      ((runLoop ctx t fuel s acc).1).states.getD k [] =
        normRow ctx.state_mean ctx.state_std
          ((iterFrom ctx t s (k - t)).runningState) := by
  induction fuel with
  | zero =>
    intro t s acc k htk hk _ _
    rw [runLoop_zero] at hk
    exact absurd (show k < t from hk) (by omega)
  | succ fuel ih =>
    intro t s acc k htk hk hkA hkS
    rw [runLoop_succ] at hk ⊢
    by_cases hdone : (stepOnce ctx t s).2.1
    · rw [if_pos hdone] at hk ⊢
      have hkt : k = t := by
        have hk2 : k < t + 1 := hk
        omega
      subst hkt
      rw [Nat.sub_self]
      constructor
      · rw [stepOnce_actions]
        exact set_getD_eq _ k _ _ hkA
      · rw [stepOnce_states]
        exact set_getD_eq _ k _ _ hkS
    · rw [if_neg hdone] at hk ⊢
      rcases Nat.eq_or_lt_of_le htk with hkt | hkt
      · subst hkt
        rw [Nat.sub_self]
        obtain ⟨h1, h2⟩ := runLoop_frozen ctx fuel (t + 1)
          ((stepOnce ctx t s).1) (acc + (stepOnce ctx t s).2.2) t
          (vzero ctx.act_dim) [] (by omega)
        constructor
        · rw [h1, stepOnce_actions]
          exact set_getD_eq _ t _ _ hkA
        · rw [h2, stepOnce_states]
          exact set_getD_eq _ t _ _ hkS
      · have hsub : k - t = (k - (t + 1)) + 1 := by omega
        rw [hsub]
        have hiter : iterFrom ctx t s ((k - (t + 1)) + 1) =
            iterFrom ctx (t + 1) ((stepOnce ctx t s).1) (k - (t + 1)) := by
          clear hk
          generalize k - (t + 1) = n
          induction n generalizing t s with
          | zero => rfl
          | succ n ihn =>
            show iterFrom ctx (t + 1) ((stepOnce ctx t s).1) (n + 1) = _
            rfl
        rw [hiter]
        exact ih (t + 1) ((stepOnce ctx t s).1) (acc + (stepOnce ctx t s).2.2)
          k (by omega) hk
          (by rw [stepOnce_actions, List.length_set]; exact hkA)
          (by rw [stepOnce_states, List.length_set]; exact hkS)

lemma episodeSteps_le (ctx : EvalCtx E) :
    episodeSteps ctx ≤ ctx.max_test_ep_len := by
  have := runLoop_end_le ctx ctx.max_test_ep_len 0 (initEp ctx) 0
  simpa [episodeSteps] using this

/-- C1: at every executed step `t` of an episode, the action recorded at
buffer position `t` is the policy's prediction read from exactly the window
the source presents: for `t < context_len` the fixed prefix `[0, context_len)`
of the timestep/state/action/return-to-go buffers (after the step-`t` state
and return-to-go writes) with the prediction at local position `t`; for
`t ≥ context_len` the trailing window `[t-context_len+1, t+1)` with the
prediction at the last position. -/
theorem c1_context_selection (E : Type) (ctx : EvalCtx E) (t : ℕ)
    (ht : t < episodeSteps ctx) :
    (episodeFinal ctx).actions.getD t (vzero ctx.act_dim) =
      (let s := stateAt ctx t
       let states1 := s.states.set t
         (normRow ctx.state_mean ctx.state_std s.runningState)
       let rtgs1 := s.rewards_to_go.set t
         (s.runningRtg - s.runningReward / ctx.rtg_scale)
       let cl := ctx.context_len
       if t < cl then
         (ctx.model ((timestepsBuf ctx).take cl) (states1.take cl)
           (s.actions.take cl) (rtgs1.take cl)).getD t (vzero ctx.act_dim)
       else
         (ctx.model (((timestepsBuf ctx).drop (t - cl + 1)).take cl)
           ((states1.drop (t - cl + 1)).take cl)
           ((s.actions.drop (t - cl + 1)).take cl)
           ((rtgs1.drop (t - cl + 1)).take cl)).getLastD (vzero ctx.act_dim)) := by
  have hmax : t < ctx.max_test_ep_len := lt_of_lt_of_le ht (episodeSteps_le ctx)
  have hbody : (let s := stateAt ctx t
       let states1 := s.states.set t
         (normRow ctx.state_mean ctx.state_std s.runningState)
       let rtgs1 := s.rewards_to_go.set t
         (s.runningRtg - s.runningReward / ctx.rtg_scale)
       let cl := ctx.context_len
       if t < cl then
         (ctx.model ((timestepsBuf ctx).take cl) (states1.take cl)
           (s.actions.take cl) (rtgs1.take cl)).getD t (vzero ctx.act_dim)
       else
         (ctx.model (((timestepsBuf ctx).drop (t - cl + 1)).take cl)
           ((states1.drop (t - cl + 1)).take cl)
           ((s.actions.drop (t - cl + 1)).take cl)
           ((rtgs1.drop (t - cl + 1)).take cl)).getLastD (vzero ctx.act_dim)) =
      chosenAct ctx t (stateAt ctx t) := rfl
  rw [hbody]
  have h := (runLoop_writes ctx ctx.max_test_ep_len 0 (initEp ctx) 0 t
    (Nat.zero_le t) ht
    (by simpa [initEp] using hmax)
    (by simpa [initEp] using hmax)).1
  rw [Nat.sub_zero] at h
  exact h

lemma evalTotals_eq (ctx : EvalCtx E) (n : ℕ) :
    evalTotals ctx n =
      ((n : ℚ) * (runEpisode ctx).1, n * (runEpisode ctx).2) := by
  induction n with
  | zero => simp [evalTotals]
  | succ n ih =>
    show ((evalTotals ctx n).1 + (runEpisode ctx).1,
      (evalTotals ctx n).2 + (runEpisode ctx).2) = _
    rw [ih, Prod.mk.injEq]
    constructor
    · show (n : ℚ) * (runEpisode ctx).1 + (runEpisode ctx).1 = _
      push_cast
      ring
    · show n * (runEpisode ctx).2 + (runEpisode ctx).2 = _
      rw [Nat.succ_mul]

/-- The environment of the C7 evaluator scenario: terminates on the 4th
`step` call regardless of the action, constant reward 1. -/
def stubEnv : Env ℕ :=
  { obs_dim := 1,
    act_dim := 1,
    reset := (0, [0]),
    step := fun n _a => (n + 1, [0], 1, n == 3, false) }

/-- A concrete policy for the C7 scenario (its outputs are ignored by
`stubEnv`). -/
def stubModel : Policy := fun _ _ _ _ => List.replicate 8 (vzero 1)

/-- C7: the evaluator returns `avg_score = total reward across episodes /
num_eval_ep` and `avg_ep_len = total steps across episodes / num_eval_ep`
(each episode contributes `runEpisode`, so the totals are
`num_eval_ep * per-episode values`); for one episode against an environment
that terminates after exactly 4 steps with constant reward 1, it returns
`avg_score = 4` and `avg_ep_len = 4`. -/
theorem c7_evaluator_averages (E : Type) (model : Policy) (env : Env E)
    (context_len : ℕ) (rtg_target rtg_scale : ℚ)
    (num_eval_ep max_test_ep_len : ℕ) (sm ss : Option Vec) (da : Bool) :
    evaluate_on_env model env context_len rtg_target rtg_scale num_eval_ep
        max_test_ep_len sm ss da =
      (((num_eval_ep : ℚ) * (runEpisode (mkCtx model env context_len rtg_target
          rtg_scale max_test_ep_len sm ss da)).1) / (num_eval_ep : ℚ),
       ((num_eval_ep * (runEpisode (mkCtx model env context_len rtg_target
          rtg_scale max_test_ep_len sm ss da)).2 : ℕ) : ℚ) / (num_eval_ep : ℚ)) ∧
    evaluate_on_env stubModel stubEnv 4 0 1 1 8 none none false = (4, 4) := by
  constructor
  · show ((evalTotals _ num_eval_ep).1 / _, _) = _
    rw [evalTotals_eq]
  · have hep : runEpisode (mkCtx stubModel stubEnv 4 0 1 8 none none false)
        = (4, 4) := by
      simp only [runEpisode, mkCtx, initEp, runLoop, stepOnce, chosenAct,
        timestepsBuf, stubEnv, stubModel, normRow, vzero, vones,
        Option.getD, List.replicate_succ]
      norm_num
    show ((evalTotals (mkCtx stubModel stubEnv 4 0 1 8 none none false) 1).1
        / (1 : ℚ), _) = _
    rw [evalTotals_eq, hep]
    norm_num

lemma normRow_id (v : Vec) : ∀ d : ℕ, v.length = d →
    normRow (vzero d) (vones d) v = v := by
  induction v with
  | nil =>
    intro d _
    simp [normRow]
  | cons a v2 ih =>
    intro d hd
    cases d with
    | zero => simp at hd
    | succ n =>
      show normRow (vzero (n + 1)) (vones (n + 1)) (a :: v2) = _
      unfold normRow vzero vones
      rw [List.replicate_succ, List.replicate_succ, List.zipWith_cons_cons,
        List.zipWith_cons_cons, sub_zero, div_one]
      have := ih n (by simpa using hd)
      unfold normRow vzero vones at this
      rw [this]

lemma iterFrom_runningState_length (ctx : EvalCtx E)
    (hstep : ∀ e a, ((ctx.env.step e a).2.1).length = ctx.env.obs_dim) :
    ∀ (n t : ℕ) (s : EpState E), s.runningState.length = ctx.env.obs_dim →
      ((iterFrom ctx t s n).runningState).length = ctx.env.obs_dim := by
  intro n
  induction n with
  | zero =>
    intro t s hs
    exact hs
  | succ n ih =>
    intro t s _
    show ((iterFrom ctx (t + 1) (stepOnce ctx t s).1 n).runningState).length = _
    exact ih (t + 1) _ (hstep s.envSt (chosenAct ctx t s))

/-- C10: `evaluate_on_env` called with `state_mean = None` and
`state_std = None` substitutes a zero vector for the mean and a ones vector
for the std (identity scaling), so at every executed step of every episode
the state written into the rollout buffer is the raw environment state,
unnormalized, with no error raised. -/
theorem c10_none_stats_identity (E : Type) (model : Policy) (env : Env E)
    (context_len : ℕ) (rtg_target rtg_scale : ℚ) (max_test_ep_len : ℕ)
    (da : Bool) (t : ℕ)
    (hreset : env.reset.2.length = env.obs_dim)
    (hstep : ∀ e a, ((env.step e a).2.1).length = env.obs_dim)
    (ht : t < episodeSteps (mkCtx model env context_len rtg_target rtg_scale
      max_test_ep_len none none da)) :
    mkCtx model env context_len rtg_target rtg_scale max_test_ep_len
        none none da =
      mkCtx model env context_len rtg_target rtg_scale max_test_ep_len
        (some (vzero env.obs_dim)) (some (vones env.obs_dim)) da ∧
    (episodeFinal (mkCtx model env context_len rtg_target rtg_scale
        max_test_ep_len none none da)).states.getD t [] =
      (stateAt (mkCtx model env context_len rtg_target rtg_scale
        max_test_ep_len none none da) t).runningState := by
  refine ⟨rfl, ?_⟩
  have hmax : t < (mkCtx model env context_len rtg_target rtg_scale
      max_test_ep_len none none da).max_test_ep_len :=
    lt_of_lt_of_le ht (episodeSteps_le _)
  have h := (runLoop_writes (mkCtx model env context_len rtg_target rtg_scale
      max_test_ep_len none none da)
    max_test_ep_len 0 (initEp _) 0 t (Nat.zero_le t) ht
    (by simpa [initEp] using hmax)
    (by simpa [initEp] using hmax)).2
  rw [Nat.sub_zero] at h
  have hlen : (((stateAt (mkCtx model env context_len rtg_target rtg_scale
      max_test_ep_len none none da) t).runningState)).length = env.obs_dim :=
    iterFrom_runningState_length _ hstep t 0 _ hreset
  exact h.trans (normRow_id _ env.obs_dim hlen)

/-! ### Concrete instances discharging each hypothesized theorem -/

/-- A concrete stored trajectory of length 3 for the C2 instance. -/
def trajC2 : STraj :=
  { observations := [[1], [2], [3]], actions := some [[4], [5], [6]],
    rewards := [1, 1, 1], returns_to_go := [3, 2, 1] }

/-- Closed instance of `c2_window_slicing` at `context_len = 2`, `si = 1`. -/
theorem c2_window_slicing_witness :
    ∃ w : Window, getItem 2 trajC2 1 = Except.ok w ∧
      w.timesteps = List.range' 1 2 ∧
      w.states.length = 2 ∧
      w.actions.length = 2 ∧
      w.returns_to_go.length = 2 ∧
      (∀ j, j < 2 →
        w.timesteps.getD j 0 = 1 + j ∧
        w.states.getD j [] = trajC2.observations.getD (1 + j) [] ∧
        w.actions.getD j [] = ([[4], [5], [6]] : List Vec).getD (1 + j) [] ∧
        w.returns_to_go.getD j 0 = trajC2.returns_to_go.getD (1 + j) 0) ∧
      w.traj_mask = List.replicate 2 1 ∧
      (trajC2.observations.length = 2 → 1 = 0) :=
  c2_window_slicing 2 1 trajC2 [[4], [5], [6]] rfl rfl rfl
    (by decide) (by decide)

/-- A concrete stored trajectory of length 2 for the C3 instance. -/
def trajC3 : STraj :=
  { observations := [[1], [2]], actions := some [[4], [5]],
    rewards := [1, 1], returns_to_go := [2, 1] }

/-- Closed instance of `c3_window_padding` at `context_len = 4`, `L = 2`. -/
theorem c3_window_padding_witness :
    ∃ w : Window, getItem 4 trajC3 0 = Except.ok w ∧
      w.timesteps = List.range 4 ∧
      w.states.length = 4 ∧
      w.actions.length = 4 ∧
      w.returns_to_go.length = 4 ∧
      (∀ j, j < trajC3.observations.length →
        w.states.getD j [] = trajC3.observations.getD j [] ∧
        w.actions.getD j [] = ([[4], [5]] : List Vec).getD j [] ∧
        w.returns_to_go.getD j 0 = trajC3.returns_to_go.getD j 0) ∧
      (∀ j, trajC3.observations.length ≤ j → j < 4 →
        w.states.getD j [] = vzero (trajC3.observations.headD []).length ∧
        w.actions.getD j [] = vzero (([[4], [5]] : List Vec).headD []).length ∧
        w.returns_to_go.getD j 0 = 0) ∧
      w.traj_mask = List.replicate trajC3.observations.length 1 ++
        List.replicate (4 - trajC3.observations.length) 0 ∧
      w.traj_mask.sum = trajC3.observations.length :=
  c3_window_padding 4 trajC3 [[4], [5]] rfl rfl rfl (by decide)

/-- The store `datasetInit` produces from `[c5Record]` with `msqrt = id`,
`rtg_scale = 1`. -/
def stC5W : Store :=
  { trajectories :=
      [{ observations := [[0]],
         actions := some [[0]],
         rewards := [1, 1, 1],
         returns_to_go := [3, 2, 1] }],
    state_mean := [0],
    state_std := [1 / 1000000] }

lemma stC5W_init : datasetInit (fun q => q) [c5Record] 1 = Except.ok stC5W := by
  norm_num [datasetInit, procAll, procTraj, c5Record, discount_cumsum,
    featVar, featMean, featSum, normRow, stC5W, Store.mk.injEq, STraj.mk.injEq]

/-- Closed instance of `c5_store_returns_to_go` at the one-trajectory store
built from `c5Record`. -/
theorem c5_store_returns_to_go_witness :
    ((stC5W.trajectories.getD 0 ⟨[], none, [], []⟩).returns_to_go =
      (suffixSums (([c5Record].getD 0 ⟨none, none, none⟩).rewards.getD [])).map
        (· / 1)) ∧
    (∃ st3, datasetInit (fun q => q) [c5Record] 1 = Except.ok st3 ∧
      (st3.trajectories.getD 0 ⟨[], none, [], []⟩).returns_to_go = [3, 2, 1]) :=
  c5_store_returns_to_go (fun q => q) [c5Record] 1 stC5W 0 stC5W_init
    (by decide)

/-- A raw record with two observation rows (so the statistics are
non-trivial) and no `actions` field, for the C6 instance. -/
def c6Record : RawTraj :=
  { observations := some [[1], [3]], actions := none, rewards := some [1] }

/-- The store `datasetInit` produces from `[c6Record]` with `msqrt = id`,
`rtg_scale = 1`: mean 2, variance 1, std `1 + 1e-6`. -/
def c6Store : Store :=
  { trajectories :=
      [{ observations := [[-(1000000 : ℚ) / 1000001], [(1000000 : ℚ) / 1000001]],
         actions := none,
         rewards := [1],
         returns_to_go := [1] }],
    state_mean := [2],
    state_std := [(1000001 : ℚ) / 1000000] }

lemma c6Store_init : datasetInit (fun q => q) [c6Record] 1 = Except.ok c6Store := by
  norm_num [datasetInit, procAll, procTraj, c6Record, discount_cumsum,
    featVar, featMean, featSum, normRow, c6Store, Store.mk.injEq, STraj.mk.injEq]

lemma c6_uniform : ∀ r ∈ rawRows [c6Record], r.length = rawDim [c6Record] := by
  intro r hr
  simp only [rawRows, c6Record, List.map_cons, List.map_nil, Option.getD_some,
    List.flatten] at hr
  simp at hr
  rcases hr with rfl | rfl <;> decide

/-- Closed instance of `c6_store_normalization` at the one-trajectory store
built from `c6Record`. -/
theorem c6_store_normalization_witness :
    c6Store.state_mean = featMean (rawDim [c6Record]) (rawRows [c6Record]) ∧
    c6Store.state_std = storeStd (fun q => q) [c6Record] ∧
    (∀ j, j < rawDim [c6Record] →
      c6Store.state_mean.getD j 0 =
        ((rawRows [c6Record]).map (fun r => r.getD j 0)).sum /
          ((rawRows [c6Record]).length : ℚ)) ∧
    (∀ j, j < rawDim [c6Record] →
      c6Store.state_std.getD j 0 =
        (fun q => q) (((rawRows [c6Record]).map (fun r =>
            (r.getD j 0 - ((rawRows [c6Record]).map (fun r2 => r2.getD j 0)).sum /
              ((rawRows [c6Record]).length : ℚ)) *
            (r.getD j 0 - ((rawRows [c6Record]).map (fun r2 => r2.getD j 0)).sum /
              ((rawRows [c6Record]).length : ℚ)))).sum /
          ((rawRows [c6Record]).length : ℚ))
          + 1 / 1000000) ∧
    c6Store.trajectories.map (fun tr => tr.observations) =
      [c6Record].map (fun tr => (tr.observations.getD []).map
        (normRow c6Store.state_mean c6Store.state_std)) :=
  c6_store_normalization (fun q => q) [c6Record] 1 c6Store c6Store_init
    c6_uniform

/-- Injected reference tables for the C9 instance: bounds 10 and 110 for
one environment, nothing else registered. -/
def refMinW : String → Option ℚ := fun e => if e = "cheetah" then some 10 else none

/-- See `refMinW`. -/
def refMaxW : String → Option ℚ := fun e => if e = "cheetah" then some 110 else none

/-- Closed instance of `c9_normalized_score` at bounds (10, 110). -/
theorem c9_normalized_score_witness :
    (∀ s, get_d4rl_normalized_score refMinW refMaxW s "cheetah" =
      Except.ok ((s - 10) / (110 - 10))) ∧
    get_d4rl_normalized_score refMinW refMaxW 10 "cheetah" = Except.ok 0 ∧
    get_d4rl_normalized_score refMinW refMaxW 110 "cheetah" = Except.ok 1 ∧
    (∀ env2 s, refMinW env2 = none ∨ refMaxW env2 = none →
      get_d4rl_normalized_score refMinW refMaxW s env2 =
        Except.error "KeyError") :=
  c9_normalized_score refMinW refMaxW "cheetah" 10 110
    (by simp [refMinW]) (by simp [refMaxW]) (by norm_num)

/-- A never-terminating single-feature environment for the C1 instance. -/
def envC1 : Env ℕ :=
  { obs_dim := 1, act_dim := 1, reset := (0, [0]),
    step := fun n _a => (n + 1, [0], 1, false, false) }

/-- A concrete policy for the C1 instance. -/
def modelC1 : Policy := fun _ _ _ _ => [[1], [2], [3]]

/-- The C1 instance configuration: `context_len = 2`,
`max_test_ep_len = 3`, no statistics supplied. -/
def ctxC1 : EvalCtx ℕ := mkCtx modelC1 envC1 2 0 1 3 none none false

lemma ctxC1_steps : 2 < episodeSteps ctxC1 := by
  simp [episodeSteps, ctxC1, mkCtx, runLoop, stepOnce, chosenAct, initEp,
    timestepsBuf, envC1, modelC1, normRow, vzero, vones, List.replicate,
    List.replicate_succ]

/-- Closed instance of `c1_context_selection` at step `t = 2` of the C1
instance configuration (the trailing-window branch, `t ≥ context_len`). -/
theorem c1_context_selection_witness :
    (episodeFinal ctxC1).actions.getD 2 (vzero ctxC1.act_dim) =
      (let s := stateAt ctxC1 2
       let states1 := s.states.set 2
         (normRow ctxC1.state_mean ctxC1.state_std s.runningState)
       let rtgs1 := s.rewards_to_go.set 2
         (s.runningRtg - s.runningReward / ctxC1.rtg_scale)
       let cl := ctxC1.context_len
       if 2 < cl then
         (ctxC1.model ((timestepsBuf ctxC1).take cl) (states1.take cl)
           (s.actions.take cl) (rtgs1.take cl)).getD 2 (vzero ctxC1.act_dim)
       else
         (ctxC1.model (((timestepsBuf ctxC1).drop (2 - cl + 1)).take cl)
           ((states1.drop (2 - cl + 1)).take cl)
           ((s.actions.drop (2 - cl + 1)).take cl)
           ((rtgs1.drop (2 - cl + 1)).take cl)).getLastD (vzero ctxC1.act_dim)) :=
  c1_context_selection ℕ ctxC1 2 ctxC1_steps

/-- A never-terminating environment with distinguishable raw states for the
C10 instance. -/
def envC10 : Env ℕ :=
  { obs_dim := 1, act_dim := 1, reset := (0, [5]),
    step := fun n _a => (n + 1, [7], 1, false, false) }

/-- A concrete policy for the C10 instance. -/
def modelC10 : Policy := fun _ _ _ _ => [[2], [2]]

lemma c10_steps : 1 < episodeSteps (mkCtx modelC10 envC10 1 0 1 2 none none false) := by
  simp [episodeSteps, mkCtx, runLoop, stepOnce, chosenAct, initEp,
    timestepsBuf, envC10, modelC10, normRow, vzero, vones, List.replicate,
    List.replicate_succ]

/-- Closed instance of `c10_none_stats_identity` at step `t = 1` of a
two-step episode with `state_mean = state_std = None`. -/
theorem c10_none_stats_identity_witness :
    mkCtx modelC10 envC10 1 0 1 2 none none false =
      mkCtx modelC10 envC10 1 0 1 2 (some (vzero envC10.obs_dim))
        (some (vones envC10.obs_dim)) false ∧
    (episodeFinal (mkCtx modelC10 envC10 1 0 1 2 none none false)).states.getD
        1 [] =
      (stateAt (mkCtx modelC10 envC10 1 0 1 2 none none false) 1).runningState :=
  c10_none_stats_identity ℕ modelC10 envC10 1 0 1 2 false 1 rfl
    (fun _ _ => rfl) c10_steps

end DT
